import Mathlib

/-!
Verification of the nanohttp HTTP/1.1 message model: a shallow embedding of
`src/status.rs` and `src/response.rs` (status codes, response construction,
serialization to wire text, and parsing from wire text), together with proofs
about the wire-format behaviour.

Rust strings are modelled as lists of unicode scalar values (`List Char`);
`str::split` with a literal pattern is modelled by `splitOnSeq`, which scans
left to right for non-overlapping occurrences of the pattern and always yields
at least one (possibly empty) piece.
-/

namespace Nanohttp

instance {ε α : Type} [DecidableEq ε] [DecidableEq α] : DecidableEq (Except ε α) := fun a b => by
  cases a <;> cases b
  case error.error e f =>
    exact if h : e = f then isTrue (congrArg _ h) else isFalse (fun hh => h (by injection hh))
  case error.ok => exact isFalse (fun hh => Except.noConfusion hh)
  case ok.error => exact isFalse (fun hh => Except.noConfusion hh)
  case ok.ok x y =>
    exact if h : x = y then isTrue (congrArg _ h) else isFalse (fun hh => h (by injection hh))

/-- Characters of a Rust `String` / `&str`, as a list of unicode scalar values. -/
abbrev Str : Type := List Char

/-- Shorthand to write `Str` values via Lean string literals. -/
def str (s : String) : Str := s.data

/-- Fuel-indexed worker for `splitOnSeq`; the fuel only serves to make the
recursion structural, and is irrelevant once it is at least the length of the
string being split. -/
def splitOnSeqF (sep : Str) : Nat → Str → List Str
  | _, [] => [[]]
  | 0, c :: rest => [c :: rest]
  | fuel+1, c :: rest =>
    if sep ≠ [] ∧ sep.isPrefixOf (c :: rest) then
      [] :: splitOnSeqF sep fuel (List.drop sep.length (c :: rest))
    else
      match splitOnSeqF sep fuel rest with
      | [] => [[c]]
      | p :: ps => (c :: p) :: ps

/-- Model of Rust `str::split` with a (non-empty) literal pattern: splits on
every non-overlapping occurrence of `sep`, scanning left to right, and always
returns at least one piece (the pieces an iterator of successive `next()`
calls would yield). -/
def splitOnSeq (sep s : Str) : List Str := splitOnSeqF sep s.length s

/-- `containsSeq sep s` holds iff `sep` occurs contiguously inside `s`. -/
def containsSeq (sep : Str) : Str → Bool
  | [] => sep.isEmpty
  | c :: rest => sep.isPrefixOf (c :: rest) || containsSeq sep rest

/-- UTF-8 byte length of a string, the model of Rust `str::len`. -/
def byteLen (s : Str) : Nat := (s.map Char.utf8Size).sum

/-- Modelled from the spec: the error kind tags of `src/error.rs`, which is
not part of the sources; §7 of the spec gives exactly two kinds (a validation
kind for methods and a parse kind for protocol text), and `src/status.rs` /
`src/response.rs` name them `InvalidMethod` and `ParserError`. -/
inductive ErrorType
  | InvalidMethod
  | ParserError
deriving DecidableEq

/-- Modelled from the spec: the error value of `src/error.rs` (absent from the
sources); per §7 it carries a kind tag and a human-readable message, matching
the `Error { err_type, msg }` literals built in `src/status.rs` and
`src/response.rs`. -/
structure Error where
  err_type : ErrorType
  msg : Str
deriving DecidableEq

/-- The `Status` enum of `src/status.rs`. -/
inductive Status
  | SwitchingProtocols
  | Ok
  | SeeOther
  | NotFound
  | InternalServerError
  | BadRequest
  | Unauthorized
  | Forbidden
  | NotAllowed
deriving DecidableEq

/-- `Status::code`: the numeric representation of the status code. -/
def Status.code : Status → Nat
  | .SwitchingProtocols => 101
  | .Ok => 200
  | .SeeOther => 303
  | .BadRequest => 400
  | .Unauthorized => 401
  | .Forbidden => 403
  | .NotFound => 404
  | .NotAllowed => 405
  | .InternalServerError => 500

/-- `Status::message`: the status reason phrase. -/
def Status.message : Status → Str
  | .SwitchingProtocols => str "SWITCHING PROTOCOLS"
  | .Ok => str "OK"
  | .SeeOther => str "SEE OTHER"
  | .BadRequest => str "BAD REQUEST"
  | .Unauthorized => str "UNAUTHORIZED"
  | .Forbidden => str "FORBIDDEN"
  | .NotFound => str "NOT FOUND"
  | .NotAllowed => str "NOT ALLOWED"
  | .InternalServerError => str "INTERNAL SERVER ERROR"

/-- `impl ToString for Status`: `format!("{} {}", self.code(), self.message())`. -/
def Status.to_string (s : Status) : Str :=
  Nat.toDigits 10 s.code ++ str " " ++ s.message

/-- `impl FromStr for Status`: exact string match against the nine supported
3-digit codes, every other input yielding a `ParserError`. -/
def Status.from_str (code : Str) : Except Error Status :=
  if code = str "101" then .ok .SwitchingProtocols
  else if code = str "200" then .ok .Ok
  else if code = str "303" then .ok .SeeOther
  else if code = str "400" then .ok .BadRequest
  else if code = str "401" then .ok .Unauthorized
  else if code = str "403" then .ok .Forbidden
  else if code = str "404" then .ok .NotFound
  else if code = str "405" then .ok .NotAllowed
  else if code = str "500" then .ok .InternalServerError
  else .error ⟨ErrorType.ParserError, str "Invalid status format"⟩

/-- Modelled from the spec: the `Header` key/value pair of `src/header.rs`
(absent from the sources); per §3 and §6 it is an owned pair of text exposing
`new(key, value)` and a `"key: value"` rendering. -/
structure Header where
  key : Str
  value : Str
deriving DecidableEq

/-- `Header::new`. -/
def Header.new (key value : Str) : Header := ⟨key, value⟩

/-- Modelled from the spec: `HeaderField.toText() -> "key: value"` (§6); no
escaping is performed. -/
def Header.to_string (h : Header) : Str := h.key ++ str ": " ++ h.value

/-- The `Response` struct of `src/response.rs`. -/
structure Response where
  scheme : Str
  version : Str
  status : Status
  headers : List Header
  content : Str
deriving DecidableEq

/-- `Response::empty`. -/
def Response.empty : Response :=
  ⟨str "HTTP", str "1.1", Status.Ok, [], []⟩

/-- `Response::body`: a response with the given body and no headers. -/
def Response.body (content : Str) : Response :=
  ⟨str "HTTP", str "1.1", Status.Ok, [], content⟩

/-- `Response::header` (named `header'` as the struct field is `headers`):
pushes one header at the end of the list. -/
def Response.header' (self : Response) (header : Header) : Response :=
  { self with headers := self.headers ++ [header] }

/-- `Response::content` (named `content'` as the struct field is `content`):
body plus `Content-Type` and `Content-Length` headers, in that order, the
latter rendered from the byte length of the content. -/
def Response.content' (content content_type : Str) : Response :=
  ((Response.body content).header'
      (Header.new (str "Content-Type") content_type)).header'
    (Header.new (str "Content-Length") (Nat.toDigits 10 (byteLen content)))

/-- `Response::html`. -/
def Response.html (content : Str) : Response :=
  Response.content' content (str "text/html")

/-- `Response::json`. -/
def Response.json (content : Str) : Response :=
  Response.content' content (str "application/json")

/-- `Response::cookie`. -/
def Response.cookie (self : Response) (content : Str) : Response :=
  self.header' (Header.new (str "Set-Cookie") content)

/-- `Response::status` (named `status'` as the struct field is `status`). -/
def Response.status' (self : Response) (status : Status) : Response :=
  { self with status := status }

/-- `Response::parse_protocol`: split the protocol token on `/`; the first two
pieces are scheme and version, a missing second piece is a parse error. -/
def Response.parse_protocol (line : Str) : Except Error (Str × Str) :=
  match splitOnSeq (str "/") line with
  | [] => .error ⟨ErrorType.ParserError, str "Invalid protocol format"⟩
  | [_] => .error ⟨ErrorType.ParserError, str "Invalid protocol format"⟩
  | scheme :: version :: _ => .ok (scheme, version)

/-- `Response::parse_header`: split the line on `": "`; the first two pieces
are key and value, a missing second piece is a parse error. -/
def Response.parse_header (line : Str) : Except Error Header :=
  match splitOnSeq (str ": ") line with
  | [] => .error ⟨ErrorType.ParserError, str "Invalid header format"⟩
  | [_] => .error ⟨ErrorType.ParserError, str "Invalid header format"⟩
  | key :: value :: _ => .ok (Header.new key value)

/-- `impl ToString for Response`: the status line, a CRLF, the headers (each
rendered and CRLF-terminated, folded in order), a blank CRLF, then the body. -/
def Response.to_string (r : Response) : Str :=
  r.scheme ++ str "/" ++ r.version ++ str " " ++ Status.to_string r.status
    ++ str "\r\n"
    ++ r.headers.foldl (fun a b => a ++ Header.to_string b ++ str "\r\n") []
    ++ str "\r\n" ++ r.content

/-- `Response::parse`: split the buffer on the first `"\r\n\r\n"` into head and
body, split the head on `"\r\n"` into start line and header lines, split the
start line on spaces into protocol and status-code tokens, decode them, keep
the header lines that parse (`flat_map` over the fallible header parser), and
assemble the response — with the status hard-coded to `Status::Ok`. -/
def Response.parse (buffer : Str) : Except Error Response :=
  match (splitOnSeq (str "\r\n\r\n") buffer).head? with
  | none => .error ⟨ErrorType.ParserError, str "Invalid response format"⟩
  | some hpart =>
    match (splitOnSeq (str "\r\n") hpart).head? with
    | none => .error ⟨ErrorType.ParserError, str "Invalid response format"⟩
    | some start_line =>
      match (splitOnSeq (str " ") start_line).head? with
      | none => .error ⟨ErrorType.ParserError, str "Invalid response format"⟩
      | some protocol =>
        match Response.parse_protocol protocol with
        | .error e => .error e
        | .ok (scheme, version) =>
          match ((splitOnSeq (str " ") start_line).drop 1).head? with
          | none => .error ⟨ErrorType.ParserError, str "Invalid response format"⟩
          | some status_code =>
            match Status.from_str status_code with
            | .ok _ =>
              .ok { scheme := scheme
                    version := version
                    status := Status.Ok
                    headers := ((splitOnSeq (str "\r\n") hpart).drop 1).filterMap
                      (fun h => (Response.parse_header h).toOption)
                    content := ((splitOnSeq (str "\r\n\r\n") buffer).drop 1).headD [] }
            | .error _ =>
              .error ⟨ErrorType.ParserError, str "Invalid response format"⟩

/-- The nine supported wire codes, in the order `Status::from_str` tests them. -/
def nineCodes : List Str :=
  [str "101", str "200", str "303", str "400", str "401",
   str "403", str "404", str "405", str "500"]

/-- Modelled from the spec: §4.3 step 2, each header rendered and terminator-
suffixed, concatenated in list order. -/
def renderHeaders : List Header → Str
  | [] => []
  | h :: t => Header.to_string h ++ str "\r\n" ++ renderHeaders t

/-- Modelled from the spec: the §4.3 serialization algorithm — status line,
CRLF, rendered headers, blank CRLF, raw body, no trailing terminator. -/
def specSerialize (r : Response) : Str :=
  r.scheme ++ str "/" ++ r.version ++ str " " ++ Status.to_string r.status
    ++ str "\r\n" ++ renderHeaders r.headers ++ str "\r\n" ++ r.content

/-- CRLF-join of a list of lines (no trailing terminator), used to build head
blocks from explicit line lists. -/
def joinLines : List Str → Str
  | [] => []
  | [l] => l
  | l :: l' :: ls => l ++ str "\r\n" ++ joinLines (l' :: ls)

/-- The head section `Response::parse` works on: the part of the buffer before
the first `"\r\n\r\n"`. -/
def headPart (buffer : Str) : Str :=
  (splitOnSeq (str "\r\n\r\n") buffer).headD []

/-- The start line `Response::parse` works on: the part of the head before the
first `"\r\n"`. -/
def startLine (buffer : Str) : Str :=
  (splitOnSeq (str "\r\n") (headPart buffer)).headD []

/-- The protocol token: the part of the start line before the first space. -/
def protocolToken (buffer : Str) : Str :=
  (splitOnSeq (str " ") (startLine buffer)).headD []

/-- The status-code token: the second space-separated piece of the start line
(empty when the start line has no space). -/
def statusToken (buffer : Str) : Str :=
  ((splitOnSeq (str " ") (startLine buffer)).drop 1).headD []

/-- The 89-byte body of the worked serialization example. -/
def exHtml : Str :=
  str "<html><head><title>Hello, world!</title></head><body><h1>Hello, world!</h1></body></html>"

/-- A response whose scheme contains a space; no public constructor builds it,
and serializing it yields a start line whose first space-separated token has
no slash. -/
def spacedScheme : Response :=
  ⟨str "A B", str "1.1", Status.Ok, [], []⟩

/-! ## Properties of the split model -/

theorem splitOnSeqF_congr (sep : Str) :
    ∀ (f g : Nat) (s : Str), s.length ≤ f → s.length ≤ g →
      splitOnSeqF sep f s = splitOnSeqF sep g s := by
  intro f
  induction f with
  | zero =>
    intro g s hf _
    have hs : s = [] := List.eq_nil_of_length_eq_zero (Nat.le_zero.mp hf)
    subst hs; cases g <;> rfl
  | succ f ih =>
    intro g s hf hg
    cases s with
    | nil => cases g <;> rfl
    | cons c rest =>
      cases g with
      | zero => simp at hg
      | succ g' =>
        have hseplen : ∀ hsep : sep ≠ [], 1 ≤ sep.length := by
          intro hsep; cases sep with
          | nil => exact absurd rfl hsep
          | cons _ _ => simp
        simp only [splitOnSeqF]
        by_cases h : sep ≠ [] ∧ sep.isPrefixOf (c :: rest) = true
        · rw [if_pos h, if_pos h]
          have hlen : (List.drop sep.length (c :: rest)).length ≤ rest.length := by
            have := hseplen h.1
            simp only [List.length_drop, List.length_cons]
            omega
          have h1 : (List.drop sep.length (c :: rest)).length ≤ f := by
            simp only [List.length_cons] at hf; omega
          have h2 : (List.drop sep.length (c :: rest)).length ≤ g' := by
            simp only [List.length_cons] at hg; omega
          rw [ih g' _ h1 h2]
        · rw [if_neg h, if_neg h]
          have h1 : rest.length ≤ f := by simp only [List.length_cons] at hf; omega
          have h2 : rest.length ≤ g' := by simp only [List.length_cons] at hg; omega
          rw [ih g' rest h1 h2]

theorem splitOnSeq_nil (sep : Str) : splitOnSeq sep [] = [[]] := rfl

theorem splitOnSeq_cons_pos {sep : Str} (c : Char) (rest : Str)
    (h1 : sep ≠ []) (h2 : sep.isPrefixOf (c :: rest) = true) :
    splitOnSeq sep (c :: rest) =
      [] :: splitOnSeq sep (List.drop sep.length (c :: rest)) := by
  have hseplen : 1 ≤ sep.length := by
    cases sep with
    | nil => exact absurd rfl h1
    | cons _ _ => simp
  show splitOnSeqF sep (c :: rest).length (c :: rest) = _
  simp only [List.length_cons, splitOnSeqF]
  rw [if_pos ⟨h1, h2⟩]
  congr 1
  apply splitOnSeqF_congr
  · simp only [List.length_drop, List.length_cons]; omega
  · exact Nat.le_refl _

theorem splitOnSeq_cons_neg {sep : Str} (c : Char) (rest : Str)
    (h : ¬(sep ≠ [] ∧ sep.isPrefixOf (c :: rest) = true)) :
    splitOnSeq sep (c :: rest) =
      match splitOnSeq sep rest with
      | [] => [[c]]
      | p :: ps => (c :: p) :: ps := by
  show splitOnSeqF sep (c :: rest).length (c :: rest) = _
  simp only [List.length_cons, splitOnSeqF]
  rw [if_neg h]
  rfl

theorem splitOnSeq_ne_nil (sep s : Str) : splitOnSeq sep s ≠ [] := by
  cases s with
  | nil => simp [splitOnSeq_nil]
  | cons c rest =>
    by_cases h : sep ≠ [] ∧ sep.isPrefixOf (c :: rest) = true
    · rw [splitOnSeq_cons_pos c rest h.1 h.2]; simp
    · rw [splitOnSeq_cons_neg c rest h]
      cases hrec : splitOnSeq sep rest <;> simp

theorem splitOnSeq_exists_cons (sep s : Str) : ∃ p ps, splitOnSeq sep s = p :: ps := by
  cases h : splitOnSeq sep s with
  | nil => exact absurd h (splitOnSeq_ne_nil sep s)
  | cons p ps => exact ⟨p, ps, rfl⟩

theorem isPrefixOf_append_self : ∀ (l y : Str), l.isPrefixOf (l ++ y) = true := by
  intro l y
  induction l with
  | nil => simp only [List.nil_append]; cases y <;> rfl
  | cons a t ih => simp [List.isPrefixOf, ih]

theorem isPrefixOf_cons_false {c0 a : Char} (sp rest : Str) (h : a ≠ c0) :
    (c0 :: sp).isPrefixOf (a :: rest) = false := by
  simp only [List.isPrefixOf, Bool.and_eq_false_iff]
  left
  exact beq_eq_false_iff_ne.mpr (fun hh => h hh.symm)

theorem splitOnSeq_single_of_not_mem {c0 : Char} {sp : Str} :
    ∀ {s : Str}, c0 ∉ s → splitOnSeq (c0 :: sp) s = [s] := by
  intro s
  induction s with
  | nil => intro _; rfl
  | cons a rest ih =>
    intro h
    have ha : a ≠ c0 := fun hh => h (hh ▸ List.mem_cons_self a rest)
    have hrest : c0 ∉ rest := fun hh => h (List.mem_cons_of_mem a hh)
    have hnp : ¬((c0 :: sp) ≠ [] ∧ (c0 :: sp).isPrefixOf (a :: rest) = true) := by
      rintro ⟨-, hp⟩
      rw [isPrefixOf_cons_false sp rest ha] at hp
      exact Bool.noConfusion hp
    rw [splitOnSeq_cons_neg a rest hnp, ih hrest]

theorem splitOnSeq_append_cons (c0 : Char) (sp : Str) :
    ∀ (x y : Str), c0 ∉ x →
      splitOnSeq (c0 :: sp) (x ++ (c0 :: sp) ++ y) = x :: splitOnSeq (c0 :: sp) y := by
  intro x
  induction x with
  | nil =>
    intro y _
    simp only [List.nil_append]
    show splitOnSeq (c0 :: sp) (c0 :: (sp ++ y)) = [] :: splitOnSeq (c0 :: sp) y
    rw [splitOnSeq_cons_pos c0 (sp ++ y) (by simp) (isPrefixOf_append_self (c0 :: sp) y)]
    rw [show List.drop (c0 :: sp).length (c0 :: (sp ++ y)) = y from List.drop_left _ _]
  | cons a x' ih =>
    intro y h
    have ha : a ≠ c0 := fun hh => h (hh ▸ List.mem_cons_self a x')
    have hx' : c0 ∉ x' := fun hh => h (List.mem_cons_of_mem a hh)
    have hnp : ¬((c0 :: sp) ≠ [] ∧
        (c0 :: sp).isPrefixOf (a :: (x' ++ (c0 :: sp) ++ y)) = true) := by
      rintro ⟨-, hp⟩
      rw [isPrefixOf_cons_false sp _ ha] at hp
      exact Bool.noConfusion hp
    show splitOnSeq (c0 :: sp) (a :: (x' ++ (c0 :: sp) ++ y)) = _
    rw [splitOnSeq_cons_neg a _ hnp, ih y hx']

theorem splitOnSeq_eq_single_of_not_contains {sep : Str} :
    ∀ {s : Str}, containsSeq sep s = false → splitOnSeq sep s = [s] := by
  intro s
  induction s with
  | nil => intro _; rfl
  | cons a rest ih =>
    intro h
    simp only [containsSeq, Bool.or_eq_false_iff] at h
    have hnp : ¬(sep ≠ [] ∧ sep.isPrefixOf (a :: rest) = true) := by
      rintro ⟨-, hp⟩
      rw [h.1] at hp
      exact Bool.noConfusion hp
    rw [splitOnSeq_cons_neg a rest hnp, ih h.2]

theorem two_le_length_splitOnSeq {sep : Str} (hsep : sep ≠ []) :
    ∀ {s : Str}, containsSeq sep s = true → 2 ≤ (splitOnSeq sep s).length := by
  intro s
  induction s with
  | nil =>
    intro h
    simp only [containsSeq, List.isEmpty_iff] at h
    exact absurd h hsep
  | cons a rest ih =>
    intro h
    simp only [containsSeq, Bool.or_eq_true] at h
    by_cases hp : sep.isPrefixOf (a :: rest) = true
    · rw [splitOnSeq_cons_pos a rest hsep hp]
      have := splitOnSeq_ne_nil sep (List.drop sep.length (a :: rest))
      have hpos : 0 < (splitOnSeq sep (List.drop sep.length (a :: rest))).length :=
        List.length_pos.mpr this
      simp only [List.length_cons]
      omega
    · have hc : containsSeq sep rest = true := by
        rcases h with h | h
        · exact absurd h hp
        · exact h
      have hnp : ¬(sep ≠ [] ∧ sep.isPrefixOf (a :: rest) = true) := fun hand => hp hand.2
      rw [splitOnSeq_cons_neg a rest hnp]
      rcases splitOnSeq_exists_cons sep rest with ⟨p, ps, hps⟩
      have := ih hc
      rw [hps] at this ⊢
      simpa using this

theorem containsSeq_singleton {c : Char} : ∀ {s : Str}, containsSeq [c] s = true ↔ c ∈ s := by
  intro s
  induction s with
  | nil => simp [containsSeq]
  | cons a rest ih =>
    have hpre : ([c].isPrefixOf (a :: rest)) = (c == a) := by
      simp [List.isPrefixOf]
    simp [containsSeq, hpre, ih]

theorem exists_two_of_two_le_length {α : Type} {xs : List α} (h : 2 ≤ xs.length) :
    ∃ a b l, xs = a :: b :: l := by
  cases xs with
  | nil => simp at h
  | cons a t =>
    cases t with
    | nil => simp at h
    | cons b l => exact ⟨a, b, l, rfl⟩

theorem nil_isPrefixOf (l : Str) : List.isPrefixOf [] l = true := by
  cases l <;> rfl

theorem splitOnSeq_cons_neg_headD {sep : Str} (c : Char) (rest : Str)
    (h : ¬(sep ≠ [] ∧ sep.isPrefixOf (c :: rest) = true)) :
    splitOnSeq sep (c :: rest) =
      (c :: (splitOnSeq sep rest).headD []) :: (splitOnSeq sep rest).tail := by
  rw [splitOnSeq_cons_neg c rest h]
  rcases splitOnSeq_exists_cons sep rest with ⟨p, ps, hps⟩
  rw [hps]
  rfl

theorem not_and_of_isPrefixOf_false {sep : Str} {c : Char} {rest : Str}
    (h : sep.isPrefixOf (c :: rest) = false) :
    ¬(sep ≠ [] ∧ sep.isPrefixOf (c :: rest) = true) := by
  rintro ⟨-, hp⟩
  rw [h] at hp
  exact Bool.noConfusion hp

/-- Splitting on the blank-line separator steps over one leading CR-free line:
the first piece is that line, the CRLF, and the first piece of the rest. -/
theorem splitOnSeq_crlf2_prepend_line :
    ∀ (sl z : Str) (c : Char), '\r' ∉ sl → z.head? = some c → c ≠ '\r' →
      splitOnSeq ['\r', '\n', '\r', '\n'] (sl ++ ['\r', '\n'] ++ z) =
        (sl ++ ['\r', '\n'] ++ (splitOnSeq ['\r', '\n', '\r', '\n'] z).headD []) ::
          (splitOnSeq ['\r', '\n', '\r', '\n'] z).tail := by
  intro sl
  induction sl with
  | nil =>
    intro z c _ hz hc
    cases z with
    | nil => exact absurd hz (by simp)
    | cons a z' =>
      have ha : a ≠ '\r' := by
        simp only [List.head?_cons, Option.some.injEq] at hz
        rw [← hz] at hc
        exact hc
      have hp0 : (['\r', '\n', '\r', '\n'] : Str).isPrefixOf ('\r' :: '\n' :: a :: z') = false := by
        have h3 : ('\r' == a) = false := beq_eq_false_iff_ne.mpr (fun hh => ha hh.symm)
        simp [List.isPrefixOf, h3]
      have hp1 : (['\r', '\n', '\r', '\n'] : Str).isPrefixOf ('\n' :: a :: z') = false :=
        isPrefixOf_cons_false _ _ (by decide)
      show splitOnSeq ['\r', '\n', '\r', '\n'] ('\r' :: '\n' :: a :: z') = _
      rw [splitOnSeq_cons_neg_headD '\r' _ (not_and_of_isPrefixOf_false hp0)]
      rw [splitOnSeq_cons_neg_headD '\n' _ (not_and_of_isPrefixOf_false hp1)]
      rcases splitOnSeq_exists_cons ['\r', '\n', '\r', '\n'] (a :: z') with ⟨p, ps, hps⟩
      rw [hps]
      simp
  | cons b sl' ih =>
    intro z c h hz hc
    have hb : b ≠ '\r' := fun hh => h (hh ▸ List.mem_cons_self b sl')
    have hsl' : '\r' ∉ sl' := fun hh => h (List.mem_cons_of_mem b hh)
    have hp : (['\r', '\n', '\r', '\n'] : Str).isPrefixOf
        (b :: (sl' ++ ['\r', '\n'] ++ z)) = false :=
      isPrefixOf_cons_false _ _ hb
    show splitOnSeq ['\r', '\n', '\r', '\n'] (b :: (sl' ++ ['\r', '\n'] ++ z)) = _
    rw [splitOnSeq_cons_neg_headD b _ (not_and_of_isPrefixOf_false hp)]
    rw [ih z c hsl' hz hc]
    simp

/-- The start line recovered by the parser from `p ++ "\r\n" ++ t` is exactly
`p` whenever `p` is CR-free: the first CRLF-piece of the first blank-line
piece is `p`. -/
theorem startLine_extraction :
    ∀ (p t : Str), '\r' ∉ p →
      ∃ tl, splitOnSeq ['\r', '\n']
          ((splitOnSeq ['\r', '\n', '\r', '\n'] (p ++ ['\r', '\n'] ++ t)).headD []) =
        p :: tl := by
  intro p
  induction p with
  | nil =>
    intro t _
    show ∃ tl, splitOnSeq ['\r', '\n']
        ((splitOnSeq ['\r', '\n', '\r', '\n'] ('\r' :: '\n' :: t)).headD []) = [] :: tl
    by_cases hm : (['\r', '\n', '\r', '\n'] : Str).isPrefixOf ('\r' :: '\n' :: t) = true
    · rw [splitOnSeq_cons_pos '\r' _ (by decide) hm]
      exact ⟨[], rfl⟩
    · have hm' : (['\r', '\n', '\r', '\n'] : Str).isPrefixOf ('\r' :: '\n' :: t) = false := by
        cases hmm : (['\r', '\n', '\r', '\n'] : Str).isPrefixOf ('\r' :: '\n' :: t)
        · rfl
        · exact absurd hmm hm
      have hp1 : (['\r', '\n', '\r', '\n'] : Str).isPrefixOf ('\n' :: t) = false := by
        cases t with
        | nil => rfl
        | cons u t' => exact isPrefixOf_cons_false _ _ (by decide)
      rw [splitOnSeq_cons_neg_headD '\r' _ (not_and_of_isPrefixOf_false hm')]
      rw [splitOnSeq_cons_neg_headD '\n' _ (not_and_of_isPrefixOf_false hp1)]
      simp only [List.headD_cons]
      have hpre2 : (['\r', '\n'] : Str).isPrefixOf
          ('\r' :: '\n' :: (splitOnSeq ['\r', '\n', '\r', '\n'] t).headD []) = true := by
        simp [List.isPrefixOf, nil_isPrefixOf]
      rw [splitOnSeq_cons_pos '\r' _ (by decide) hpre2]
      exact ⟨_, rfl⟩
  | cons a p' ih =>
    intro t h
    have ha : a ≠ '\r' := fun hh => h (hh ▸ List.mem_cons_self a p')
    have hp' : '\r' ∉ p' := fun hh => h (List.mem_cons_of_mem a hh)
    have hp4 : (['\r', '\n', '\r', '\n'] : Str).isPrefixOf
        (a :: (p' ++ ['\r', '\n'] ++ t)) = false :=
      isPrefixOf_cons_false _ _ ha
    rcases ih t hp' with ⟨tl, htl⟩
    refine ⟨tl, ?_⟩
    show splitOnSeq ['\r', '\n']
        ((splitOnSeq ['\r', '\n', '\r', '\n'] (a :: (p' ++ ['\r', '\n'] ++ t))).headD []) = _
    rw [splitOnSeq_cons_neg_headD a _ (not_and_of_isPrefixOf_false hp4)]
    simp only [List.headD_cons]
    have hp2 : (['\r', '\n'] : Str).isPrefixOf
        (a :: (splitOnSeq ['\r', '\n', '\r', '\n'] (p' ++ ['\r', '\n'] ++ t)).headD []) = false :=
      isPrefixOf_cons_false _ _ ha
    rw [splitOnSeq_cons_neg_headD a _ (not_and_of_isPrefixOf_false hp2)]
    rw [htl]
    rfl

/-- Decomposition of every status wire text: a space-free, CR-free code part,
one space, a CR-free reason part, with the code part parsing back to the
status. -/
theorem status_decomp : ∀ st : Status, ∃ cs ms,
    Status.to_string st = cs ++ ' ' :: ms ∧ ' ' ∉ cs ∧ '\r' ∉ cs ∧ '\r' ∉ ms ∧
      Status.from_str cs = Except.ok st := by
  intro st
  refine ⟨Nat.toDigits 10 st.code, st.message, ?_, ?_, ?_, ?_, ?_⟩ <;> cases st <;> decide

theorem from_str_ok_iff (s : Str) :
    (∃ st, Status.from_str s = Except.ok st) ↔ s ∈ nineCodes := by
  unfold Status.from_str
  split_ifs with h1 h2 h3 h4 h5 h6 h7 h8 h9
  · exact iff_of_true ⟨_, rfl⟩ (by rw [h1]; decide)
  · exact iff_of_true ⟨_, rfl⟩ (by rw [h2]; decide)
  · exact iff_of_true ⟨_, rfl⟩ (by rw [h3]; decide)
  · exact iff_of_true ⟨_, rfl⟩ (by rw [h4]; decide)
  · exact iff_of_true ⟨_, rfl⟩ (by rw [h5]; decide)
  · exact iff_of_true ⟨_, rfl⟩ (by rw [h6]; decide)
  · exact iff_of_true ⟨_, rfl⟩ (by rw [h7]; decide)
  · exact iff_of_true ⟨_, rfl⟩ (by rw [h8]; decide)
  · exact iff_of_true ⟨_, rfl⟩ (by rw [h9]; decide)
  · refine iff_of_false ?_ ?_
    · rintro ⟨st, hst⟩
      exact hst
    · intro hmem
      simp only [nineCodes, List.mem_cons, List.not_mem_nil, or_false] at hmem
      rcases hmem with h | h | h | h | h | h | h | h | h <;> contradiction

theorem from_str_error_of_not_mem (s : Str) (h : s ∉ nineCodes) :
    Status.from_str s =
      Except.error ⟨ErrorType.ParserError, str "Invalid status format"⟩ := by
  unfold Status.from_str
  split_ifs with h1 h2 h3 h4 h5 h6 h7 h8 h9
  · exact absurd (by rw [h1]; decide) h
  · exact absurd (by rw [h2]; decide) h
  · exact absurd (by rw [h3]; decide) h
  · exact absurd (by rw [h4]; decide) h
  · exact absurd (by rw [h5]; decide) h
  · exact absurd (by rw [h6]; decide) h
  · exact absurd (by rw [h7]; decide) h
  · exact absurd (by rw [h8]; decide) h
  · exact absurd (by rw [h9]; decide) h
  · rfl

theorem parse_protocol_error_of_no_slash {line : Str}
    (h : containsSeq (str "/") line = false) :
    Response.parse_protocol line =
      Except.error ⟨ErrorType.ParserError, str "Invalid protocol format"⟩ := by
  unfold Response.parse_protocol
  rw [splitOnSeq_eq_single_of_not_contains h]

theorem parse_protocol_ok_of_slash {line : Str}
    (h : containsSeq (str "/") line = true) :
    ∃ sv : Str × Str, Response.parse_protocol line = Except.ok sv := by
  rcases exists_two_of_two_le_length (two_le_length_splitOnSeq (by decide) h) with
    ⟨a, b, l, hl⟩
  refine ⟨(a, b), ?_⟩
  unfold Response.parse_protocol
  rw [hl]

theorem parse_header_none_iff (line : Str) :
    (Response.parse_header line).toOption = none ↔
      containsSeq (str ": ") line = false := by
  constructor
  · intro h
    by_contra hc
    have hc' : containsSeq (str ": ") line = true := by
      cases hcc : containsSeq (str ": ") line
      · exact absurd hcc hc
      · rfl
    rcases exists_two_of_two_le_length (two_le_length_splitOnSeq (by decide) hc') with
      ⟨a, b, l, hl⟩
    unfold Response.parse_header at h
    rw [hl] at h
    simp [Except.toOption] at h
  · intro h
    unfold Response.parse_header
    rw [splitOnSeq_eq_single_of_not_contains h]
    rfl

/-- Whenever parsing succeeds, the content field is the piece of the buffer
between the first and second blank-line separators (empty when there is no
second piece). -/
theorem parse_ok_content {buffer : Str} {r : Response}
    (h : Response.parse buffer = Except.ok r) :
    r.content = ((splitOnSeq (str "\r\n\r\n") buffer).drop 1).headD [] := by
  unfold Response.parse at h
  rcases splitOnSeq_exists_cons (str "\r\n\r\n") buffer with ⟨hp, bps, e1⟩
  rw [e1] at h ⊢
  simp only [List.head?_cons] at h
  rcases splitOnSeq_exists_cons (str "\r\n") hp with ⟨sl, hls, e2⟩
  rw [e2] at h
  simp only [List.head?_cons] at h
  rcases splitOnSeq_exists_cons (str " ") sl with ⟨p0, lps, e3⟩
  rw [e3] at h
  simp only [List.head?_cons] at h
  rcases hpp : Response.parse_protocol p0 with e | sv
  · rw [hpp] at h
    exact Except.noConfusion h
  · rw [hpp] at h
    rcases sv with ⟨sch, ver⟩
    cases lps with
    | nil => simp at h
    | cons c0 lps' =>
      simp only [List.drop_succ_cons, List.drop_zero, List.head?_cons] at h
      rcases hfs : Status.from_str c0 with e' | st
      · rw [hfs] at h
        exact Except.noConfusion h
      · rw [hfs] at h
        injection h with h'
        rw [← h']
        rfl

/-- Folding the header renderer from any initial accumulator is the
accumulator followed by the spec-side rendering. -/
theorem foldl_renderHeaders : ∀ (l : List Header) (init : Str),
    l.foldl (fun a b => a ++ Header.to_string b ++ str "\r\n") init =
      init ++ renderHeaders l := by
  intro l
  induction l with
  | nil => intro init; simp [renderHeaders]
  | cons h t ih =>
    intro init
    simp only [List.foldl_cons, renderHeaders, ih]
    simp [List.append_assoc]

/-- Splitting a CRLF-joined head block followed by a blank-line separator on
the blank-line separator yields the head block and the pieces of the rest,
when every line is CR-free and the header lines are nonempty. -/
theorem splitOnSeq_crlf2_joinLines :
    ∀ (ls : List Str) (sl b : Str), '\r' ∉ sl → (∀ l ∈ ls, l ≠ [] ∧ '\r' ∉ l) →
      splitOnSeq ['\r', '\n', '\r', '\n']
          (joinLines (sl :: ls) ++ ['\r', '\n', '\r', '\n'] ++ b) =
        joinLines (sl :: ls) :: splitOnSeq ['\r', '\n', '\r', '\n'] b := by
  intro ls
  induction ls with
  | nil =>
    intro sl b hsl _
    exact splitOnSeq_append_cons '\r' ['\n', '\r', '\n'] sl b hsl
  | cons l ls' ih =>
    intro sl b hsl hls
    have hl : l ≠ [] ∧ '\r' ∉ l := hls l (List.mem_cons_self l ls')
    have hls' : ∀ x ∈ ls', x ≠ [] ∧ '\r' ∉ x := fun x hx => hls x (List.mem_cons_of_mem l hx)
    have hj : joinLines (sl :: l :: ls') = sl ++ ['\r', '\n'] ++ joinLines (l :: ls') := rfl
    rw [hj]
    have hre : (sl ++ ['\r', '\n'] ++ joinLines (l :: ls')) ++ ['\r', '\n', '\r', '\n'] ++ b
        = sl ++ ['\r', '\n'] ++ (joinLines (l :: ls') ++ ['\r', '\n', '\r', '\n'] ++ b) := by
      simp [List.append_assoc]
    rw [hre]
    obtain ⟨c, hc, hcr⟩ : ∃ c,
        (joinLines (l :: ls') ++ ['\r', '\n', '\r', '\n'] ++ b).head? = some c ∧ c ≠ '\r' := by
      cases hl0 : l with
      | nil => exact absurd hl0 hl.1
      | cons a l' =>
        refine ⟨a, ?_, fun hh => hl.2 (hh ▸ (hl0 ▸ List.mem_cons_self a l'))⟩
        cases ls' with
        | nil => simp [joinLines, hl0]
        | cons x xs => simp [joinLines, hl0, str]
    rw [splitOnSeq_crlf2_prepend_line sl _ c hsl hc hcr]
    rw [ih l b hl.2 hls']
    simp

/-- Splitting a CRLF-joined head block on CRLF recovers the lines, when every
line is CR-free. -/
theorem splitOnSeq_crlf_joinLines :
    ∀ (ls : List Str) (sl : Str), '\r' ∉ sl → (∀ l ∈ ls, '\r' ∉ l) →
      splitOnSeq ['\r', '\n'] (joinLines (sl :: ls)) = sl :: ls := by
  intro ls
  induction ls with
  | nil =>
    intro sl _ _
    exact splitOnSeq_single_of_not_mem (by assumption)
  | cons l ls' ih =>
    intro sl hsl hls
    have hj : joinLines (sl :: l :: ls') = sl ++ ['\r', '\n'] ++ joinLines (l :: ls') := rfl
    rw [hj]
    rw [splitOnSeq_append_cons '\r' ['\n'] sl _ hsl]
    rw [ih l (hls l (List.mem_cons_self l ls')) (fun x hx => hls x (List.mem_cons_of_mem l hx))]

/-! ## Claim theorems -/

set_option maxRecDepth 4096

/-- C2: `Response::to_string` is deterministic and total and produces exactly
the status line, CRLF, each header rendered as `key: value` plus CRLF in list
order, one blank CRLF, then the raw body with no trailing terminator; in
particular the worked 89-byte example serializes to the exact expected wire
text. -/
theorem C2_serialize_format :
    (∀ r : Response, Response.to_string r = specSerialize r) ∧
    Response.to_string ((Response.content' exHtml (str "text/html")).status' Status.SeeOther) =
      str "HTTP/1.1 303 SEE OTHER\r\nContent-Type: text/html\r\nContent-Length: 89\r\n\r\n<html><head><title>Hello, world!</title></head><body><h1>Hello, world!</h1></body></html>" := by
  constructor
  · intro r
    unfold Response.to_string specSerialize
    rw [foldl_renderHeaders]
    simp
  · decide

/-- C6: `Response::content(C, T)` has body `C`, headers exactly
`[Content-Type: T, Content-Length: byteLen C]` in that order with the length
rendered in decimal from the byte count, and the default scheme, version and
status. -/
theorem C6_content_headers : ∀ (C T : Str),
    (Response.content' C T).content = C ∧
    (Response.content' C T).headers =
      [Header.new (str "Content-Type") T,
       Header.new (str "Content-Length") (Nat.toDigits 10 (byteLen C))] ∧
    (Response.content' C T).scheme = str "HTTP" ∧
    (Response.content' C T).version = str "1.1" ∧
    (Response.content' C T).status = Status.Ok := by
  intro C T
  exact ⟨rfl, rfl, rfl, rfl, rfl⟩

/-- C7: every supported status serializes as the decimal code, one space, and
the uppercase reason phrase, and `Status::from_str` applied to the code token
(the part before the first space) returns the same status. -/
theorem C7_status_roundtrip : ∀ s : Status,
    Status.to_string s = Nat.toDigits 10 s.code ++ ' ' :: s.message ∧
    (s.message.all fun c => c.isUpper || c == ' ') = true ∧
    Status.from_str ((splitOnSeq (str " ") (Status.to_string s)).headD []) = Except.ok s := by
  intro s
  cases s <;> exact ⟨rfl, rfl, rfl⟩

/-- C8: `Status::from_str` succeeds exactly on the nine literal supported code
strings, and every other input yields the `ParserError`-tagged error. -/
theorem C8_from_str_exact : ∀ s : Str,
    ((∃ st, Status.from_str s = Except.ok st) ↔ s ∈ nineCodes) ∧
    (s ∉ nineCodes →
      Status.from_str s =
        Except.error ⟨ErrorType.ParserError, str "Invalid status format"⟩) :=
  fun s => ⟨from_str_ok_iff s, from_str_error_of_not_mem s⟩

theorem C8_witness :
    Status.from_str (str "999") =
        Except.error ⟨ErrorType.ParserError, str "Invalid status format"⟩ ∧
    Status.from_str (str "abc") =
        Except.error ⟨ErrorType.ParserError, str "Invalid status format"⟩ ∧
    Status.from_str (str "") =
        Except.error ⟨ErrorType.ParserError, str "Invalid status format"⟩ :=
  ⟨(C8_from_str_exact (str "999")).2 (by decide),
   (C8_from_str_exact (str "abc")).2 (by decide),
   (C8_from_str_exact (str "")).2 (by decide)⟩

/-- C9: each builder replaces exactly one field — `status` replaces only the
status, `header` only appends one header at the end (never replacing existing
keys), and `cookie v` is exactly `header (Set-Cookie: v)`. -/
theorem C9_builder_frame : ∀ (r : Response) (s : Status) (h : Header) (v : Str),
    (r.status' s).scheme = r.scheme ∧
    (r.status' s).version = r.version ∧
    (r.status' s).status = s ∧
    (r.status' s).headers = r.headers ∧
    (r.status' s).content = r.content ∧
    (r.header' h).scheme = r.scheme ∧
    (r.header' h).version = r.version ∧
    (r.header' h).status = r.status ∧
    (r.header' h).headers = r.headers ++ [h] ∧
    (r.header' h).content = r.content ∧
    r.cookie v = r.header' (Header.new (str "Set-Cookie") v) := by
  intro r s h v
  exact ⟨rfl, rfl, rfl, rfl, rfl, rfl, rfl, rfl, rfl, rfl, rfl⟩

/-- C1 counterexample: a `Response` value whose scheme contains a space does
not re-parse at all — `parse (to_string r)` is an error, not an `Ok` response,
so the claim is false for arbitrary `Response` values. -/
theorem C1_counterexample :
    Response.parse (Response.to_string spacedScheme) =
      Except.error ⟨ErrorType.ParserError, str "Invalid protocol format"⟩ := by
  decide

/-- C3 counterexample: on a buffer with two blank-line separators the parsed
content is only the piece between the first and second separator, not the
entire remainder after the first one. -/
theorem C3_counterexample :
    Response.parse (str "HTTP/1.1 200 OK\r\n\r\nB\r\n\r\nC") =
      Except.ok ⟨str "HTTP", str "1.1", Status.Ok, [], str "B"⟩ ∧
    str "B" ≠ str "B\r\n\r\nC" := ⟨by decide, by decide⟩

/-- C4 counterexample: on a header line with two `": "` separators the value
is only the piece between the first and second separator, not the entire
remainder after the first one. -/
theorem C4_counterexample :
    Response.parse_header (str "a: b: c") = Except.ok (Header.new (str "a") (str "b")) ∧
    str "b" ≠ str "b: c" := ⟨by decide, by decide⟩

/-- C3 (amended): `Response::parse` splits the buffer on every occurrence of
`"\r\n\r\n"`; the head is the piece before the first occurrence and the
content is the piece between the first and second occurrences (the entire
remainder only when there is no second occurrence); when the separator is
absent the content is empty. -/
theorem C3_body_between_separators :
    (∀ (sl m t : Str) (r : Response), '\r' ∉ sl → '\r' ∉ m →
      Response.parse (sl ++ str "\r\n\r\n" ++ (m ++ str "\r\n\r\n" ++ t)) = Except.ok r →
      r.content = m) ∧
    (∀ (buffer : Str) (r : Response), containsSeq (str "\r\n\r\n") buffer = false →
      Response.parse buffer = Except.ok r → r.content = []) := by
  constructor
  · intro sl m t r hsl hm hok
    have hc := parse_ok_content hok
    rw [show str "\r\n\r\n" = '\r' :: ['\n', '\r', '\n'] from rfl] at hc
    rw [splitOnSeq_append_cons '\r' ['\n', '\r', '\n'] sl _ hsl] at hc
    rw [splitOnSeq_append_cons '\r' ['\n', '\r', '\n'] m t hm] at hc
    simpa using hc
  · intro buffer r hnc hok
    have hc := parse_ok_content hok
    rw [splitOnSeq_eq_single_of_not_contains hnc] at hc
    simpa using hc

theorem C3_witness :
    (⟨str "HTTP", str "1.1", Status.Ok, [], str "B"⟩ : Response).content = str "B" :=
  C3_body_between_separators.1 (str "HTTP/1.1 200 OK") (str "B") (str "C") _
    (by decide) (by decide) (by decide)

/-- C4 (amended): `Response::parse_header` splits on every occurrence of
`": "` and keeps the first two pieces — the key is the text before the first
separator, the value the text between the first and second separators (the
entire remainder of the line only when no further separator occurs). -/
theorem C4_header_first_two_pieces : ∀ (k v w : Str), ':' ∉ k → ':' ∉ v →
    Response.parse_header (k ++ str ": " ++ (v ++ str ": " ++ w)) =
        Except.ok (Header.new k v) ∧
    Response.parse_header (k ++ str ": " ++ v) = Except.ok (Header.new k v) := by
  intro k v w hk hv
  constructor
  · unfold Response.parse_header
    rw [show str ": " = ':' :: [' '] from rfl]
    rw [splitOnSeq_append_cons ':' [' '] k _ hk]
    rw [splitOnSeq_append_cons ':' [' '] v w hv]
  · unfold Response.parse_header
    rw [show str ": " = ':' :: [' '] from rfl]
    rw [splitOnSeq_append_cons ':' [' '] k v hk]
    rw [splitOnSeq_single_of_not_mem hv]

theorem C4_witness :
    Response.parse_header (str "Key" ++ str ": " ++ (str "val" ++ str ": " ++ str "x")) =
      Except.ok (Header.new (str "Key") (str "val")) :=
  (C4_header_first_two_pieces (str "Key") (str "val") (str "x")
    (by decide) (by decide)).1

/-- C5: parsing a buffer whose head block is a valid start line followed by
arbitrary (nonempty, CR-free) header lines always succeeds; the header list is
the in-order `filterMap` of the per-line parser, and a line parses to no entry
exactly when it lacks the `": "` separator — so a malformed line is silently
skipped while well-formed lines before and after it are retained in order. -/
theorem C5_malformed_header_skipped :
    ∀ (ls : List Str) (b : Str), (∀ l ∈ ls, l ≠ [] ∧ '\r' ∉ l) →
      ∃ r, Response.parse (joinLines (str "HTTP/1.1 200 OK" :: ls) ++ str "\r\n\r\n" ++ b) =
            Except.ok r ∧
        r.headers = ls.filterMap (fun l => (Response.parse_header l).toOption) ∧
        (∀ l, ((Response.parse_header l).toOption = none ↔
          containsSeq (str ": ") l = false)) := by
  intro ls b hls
  have hsl : '\r' ∉ str "HTTP/1.1 200 OK" := by decide
  have hA := splitOnSeq_crlf2_joinLines ls (str "HTTP/1.1 200 OK") b hsl hls
  have hB := splitOnSeq_crlf_joinLines ls (str "HTTP/1.1 200 OK") hsl
    (fun l hl => (hls l hl).2)
  refine ⟨⟨str "HTTP", str "1.1", Status.Ok,
    ls.filterMap (fun l => (Response.parse_header l).toOption),
    (splitOnSeq (str "\r\n\r\n") b).headD []⟩, ?_, rfl, fun l => parse_header_none_iff l⟩
  unfold Response.parse
  rw [show str "\r\n\r\n" = ['\r', '\n', '\r', '\n'] from rfl,
      show str "\r\n" = ['\r', '\n'] from rfl]
  rw [hA]
  simp only [List.head?_cons]
  rw [hB]
  simp only [List.head?_cons]
  rw [show splitOnSeq (str " ") (str "HTTP/1.1 200 OK") =
        [str "HTTP/1.1", str "200", str "OK"] from by decide]
  simp only [List.head?_cons]
  rw [show Response.parse_protocol (str "HTTP/1.1") =
        Except.ok (str "HTTP", str "1.1") from by decide]
  simp only [List.drop_succ_cons, List.drop_zero, List.head?_cons]
  rw [show Status.from_str (str "200") = Except.ok Status.Ok from by decide]

theorem C5_witness : (Response.parse_header (str "BAD")).toOption = none := by
  obtain ⟨r, -, -, hiff⟩ := C5_malformed_header_skipped [] (str "") (by simp)
  exact (hiff (str "BAD")).mpr (by decide)

/-- C1 (amended): for every response whose scheme and version contain no space
and no CR — in particular every response built by the public constructors,
which fix them to `HTTP` and `1.1` — re-parsing the serialized response
succeeds and the parsed status is forced to `Status::Ok`, whatever the
original status was. -/
theorem C1_roundtrip_forces_ok :
    ∀ r : Response, ' ' ∉ r.scheme → '\r' ∉ r.scheme → ' ' ∉ r.version → '\r' ∉ r.version →
      ∃ r', Response.parse (Response.to_string r) = Except.ok r' ∧
        r'.status = Status.Ok := by
  intro r h1 h2 h3 h4
  obtain ⟨cs, ms, hdec, hcs_sp, hcs_cr, hms_cr, hcs_parse⟩ := status_decomp r.status
  have hp_cr : '\r' ∉ (r.scheme ++ ['/'] ++ r.version) ++ [' '] ++ (cs ++ [' '] ++ ms) := by
    simp [List.mem_append, List.mem_singleton, h2, h4, hcs_cr, hms_cr,
      (by decide : ¬('\r' = '/')), (by decide : ¬('\r' = ' '))]
  have hbuf : Response.to_string r =
      ((r.scheme ++ ['/'] ++ r.version) ++ [' '] ++ (cs ++ [' '] ++ ms)) ++ ['\r', '\n'] ++
        (r.headers.foldl (fun a b => a ++ Header.to_string b ++ ['\r', '\n']) [] ++
          ['\r', '\n'] ++ r.content) := by
    unfold Response.to_string
    rw [hdec, show str "/" = ['/'] from rfl, show str " " = [' '] from rfl,
        show str "\r\n" = ['\r', '\n'] from rfl]
    simp [List.append_assoc]
  obtain ⟨tl, htl⟩ := startLine_extraction
    ((r.scheme ++ ['/'] ++ r.version) ++ [' '] ++ (cs ++ [' '] ++ ms))
    (r.headers.foldl (fun a b => a ++ Header.to_string b ++ ['\r', '\n']) [] ++
      ['\r', '\n'] ++ r.content) hp_cr
  rw [hbuf]
  unfold Response.parse
  rw [show str "\r\n\r\n" = ['\r', '\n', '\r', '\n'] from rfl,
      show str "\r\n" = ['\r', '\n'] from rfl,
      show str " " = [' '] from rfl]
  rcases splitOnSeq_exists_cons ['\r', '\n', '\r', '\n']
      (((r.scheme ++ ['/'] ++ r.version) ++ [' '] ++ (cs ++ [' '] ++ ms)) ++ ['\r', '\n'] ++
        (r.headers.foldl (fun a b => a ++ Header.to_string b ++ ['\r', '\n']) [] ++
          ['\r', '\n'] ++ r.content)) with ⟨hp0, bps, ebp⟩
  rw [ebp]
  simp only [List.head?_cons]
  rw [ebp] at htl
  simp only [List.headD_cons] at htl
  rw [htl]
  simp only [List.head?_cons]
  have hA_sp : ' ' ∉ r.scheme ++ ['/'] ++ r.version := by
    simp [List.mem_append, List.mem_singleton, h1, h3, (by decide : ¬(' ' = '/'))]
  rw [splitOnSeq_append_cons ' ' [] (r.scheme ++ ['/'] ++ r.version) _ hA_sp]
  rw [splitOnSeq_append_cons ' ' [] cs ms hcs_sp]
  simp only [List.head?_cons]
  have hsl2 : containsSeq (str "/") (r.scheme ++ ['/'] ++ r.version) = true := by
    rw [show str "/" = ['/'] from rfl]
    exact containsSeq_singleton.mpr (by simp)
  rcases parse_protocol_ok_of_slash hsl2 with ⟨⟨sch, ver⟩, hpp⟩
  rw [hpp]
  simp only [List.drop_succ_cons, List.drop_zero, List.head?_cons]
  rw [hcs_parse]
  exact ⟨_, rfl, rfl⟩

theorem C1_witness :
    ∃ r', Response.parse (Response.to_string
        ⟨str "HTTP", str "1.1", Status.NotFound, [], str "x"⟩) = Except.ok r' ∧
      r'.status = Status.Ok :=
  C1_roundtrip_forces_ok ⟨str "HTTP", str "1.1", Status.NotFound, [], str "x"⟩
    (by decide) (by decide) (by decide) (by decide)

/-- C10 (implicit): `Response::parse` fails exactly when the first
space-separated token of the first head line has no `/`, or the first head
line has no space (so the status token is absent), or the status token is not
one of the nine supported codes; the missing-head and missing-start-line
branches are unreachable since splitting always yields at least one piece,
and an empty scheme or version does not cause a failure. -/
theorem C10_parse_error_conditions :
    (∀ buffer : Str,
      (∃ e, Response.parse buffer = Except.error e) ↔
        ('/' ∉ protocolToken buffer ∨ ' ' ∉ startLine buffer ∨
          statusToken buffer ∉ nineCodes)) ∧
    (∀ sep s : Str, splitOnSeq sep s ≠ []) ∧
    Response.parse (str "/1.1 200 OK\r\n\r\nx") =
      Except.ok ⟨str "", str "1.1", Status.Ok, [], str "x"⟩ ∧
    Response.parse (str "HTTP/ 200 OK\r\n\r\n") =
      Except.ok ⟨str "HTTP", str "", Status.Ok, [], str ""⟩ := by
  refine ⟨?_, fun sep s => splitOnSeq_ne_nil sep s, by decide, by decide⟩
  intro buffer
  rcases splitOnSeq_exists_cons (str "\r\n\r\n") buffer with ⟨hp, bps, e1⟩
  rcases splitOnSeq_exists_cons (str "\r\n") hp with ⟨sl, hls, e2⟩
  rcases splitOnSeq_exists_cons (str " ") sl with ⟨p0, lps, e3⟩
  have hHead : headPart buffer = hp := by unfold headPart; rw [e1]; rfl
  have hSL : startLine buffer = sl := by unfold startLine; rw [hHead, e2]; rfl
  have hPT : protocolToken buffer = p0 := by unfold protocolToken; rw [hSL, e3]; rfl
  have hST : statusToken buffer = lps.headD [] := by unfold statusToken; rw [hSL, e3]; rfl
  rw [hPT, hSL, hST]
  unfold Response.parse
  rw [e1]
  simp only [List.head?_cons]
  rw [e2]
  simp only [List.head?_cons]
  rw [e3]
  simp only [List.head?_cons]
  by_cases hslash : '/' ∈ p0
  · have hcont : containsSeq (str "/") p0 = true := by
      rw [show str "/" = ['/'] from rfl]
      exact containsSeq_singleton.mpr hslash
    rcases parse_protocol_ok_of_slash hcont with ⟨⟨sch, ver⟩, hpp⟩
    rw [hpp]
    by_cases hsp : ' ' ∈ sl
    · have h2le := two_le_length_splitOnSeq (show (str " " : Str) ≠ [] by decide)
        (show containsSeq (str " ") sl = true by
          rw [show str " " = [' '] from rfl]
          exact containsSeq_singleton.mpr hsp)
      rw [e3] at h2le
      rcases lps with _ | ⟨c0, lps'⟩
      · simp at h2le
      · simp only [List.drop_succ_cons, List.drop_zero, List.head?_cons, List.headD_cons]
        by_cases hmem : c0 ∈ nineCodes
        · rcases (from_str_ok_iff c0).mpr hmem with ⟨st, hfs⟩
          rw [hfs]
          refine iff_of_false ?_ ?_
          · rintro ⟨e, he⟩
            exact Except.noConfusion he
          · rintro (h | h | h)
            · exact h hslash
            · exact h hsp
            · exact h hmem
        · rw [from_str_error_of_not_mem c0 hmem]
          exact iff_of_true ⟨_, rfl⟩ (Or.inr (Or.inr hmem))
    · have hsingle : splitOnSeq (str " ") sl = [sl] := by
        rw [show str " " = [' '] from rfl]
        exact splitOnSeq_single_of_not_mem hsp
      rw [e3] at hsingle
      injection hsingle with hps hlps
      subst hlps
      simp only [List.drop_succ_cons, List.drop_zero, List.head?_nil]
      exact iff_of_true ⟨_, rfl⟩ (Or.inr (Or.inl hsp))
  · have hcont : containsSeq (str "/") p0 = false := by
      rw [show str "/" = ['/'] from rfl]
      cases hcc : containsSeq ['/'] p0
      · rfl
      · exact absurd (containsSeq_singleton.mp hcc) hslash
    rw [parse_protocol_error_of_no_slash hcont]
    exact iff_of_true ⟨_, rfl⟩ (Or.inl hslash)

theorem C10_witness :
    ∃ e, Response.parse (str "garbage") = Except.error e :=
  (C10_parse_error_conditions.1 (str "garbage")).mpr (Or.inl (by decide))

end Nanohttp
